import Mathlib

/-!
Verification development for the `mockns1` mock request registry of the
`ns1/go-nsone-api` repository (file `src/rest/dns_view.go`, functions
`AddTestCase`, `ClearTestCases` and `convertBody`).

The embedding is byte-level: Go strings are modelled as `List Char` where each
character stands for one byte (the concrete inputs used in the development are
ASCII, where the two views coincide), and `[]byte` values are modelled as
`List Nat`.  Go maps are modelled as association lists whose insert operation
updates an existing key in place, so keys stay unique.  The parts of the Go
standard library that `AddTestCase` calls (`net/url.Parse`,
`URL.ResolveReference`, `URL.RequestURI`, `strings.Replace`,
`encoding/json.Marshal`) are modelled at the level of the strings they produce
for the call pattern used here (a rootless base `"/"` and a reference that
always begins with `"/v1/"`).
-/

set_option maxRecDepth 10000

namespace Mockns1

/-- Bytes of a Go `[]byte` value, one `Nat` per byte. -/
abbrev Bytes := List Nat

/-- Byte sequence of a Go string (byte-level model; codepoint = byte). -/
def strBytes (s : List Char) : Bytes := s.map Char.toNat

/-- Model of a Go `interface{}` body argument of `AddTestCase`.  The
`structured` constructor carries the bytes that `encoding/json.Marshal` would
produce for the underlying value, or `none` when marshaling fails; `nilVal` is
Go's untyped `nil`, which `json.Marshal` serializes as `null`. -/
inductive BodyVal where
  | raw (b : Bytes)
  | str (s : List Char)
  | nilVal
  | structured (marshaled : Option Bytes)
deriving DecidableEq, Repr

/-- Bytes of the JSON literal `null`, the result of `json.Marshal(nil)`. -/
def jsonNull : Bytes := strBytes "null".toList

/-- Result of `convertBody` (`([]byte, bool, error)` in the source). -/
inductive ConvResult where
  | ok (b : Bytes) (json : Bool)
  | err
deriving DecidableEq, Repr

/-- Model of `convertBody` (dns_view.go:516-526): a `[]byte` is used as-is and
tagged literal, a `string` is converted to its bytes and tagged literal, any
other value is JSON-marshaled and tagged structured, with a marshal failure
reported as an error. -/
def convertBody : BodyVal → ConvResult
  | .raw b => .ok b false
  | .str s => .ok (strBytes s) false
  | .nilVal => .ok jsonNull true
  | .structured (some d) => .ok d true
  | .structured none => .err

/-- Model of `http.Header` (`map[string][]string`); used only for equality. -/
abbrev Headers := List (String × List String)

/-- Request half of the `testCase` struct (dns_view.go:429-440). -/
structure TCRequest where
  headers : Headers
  body : Bytes
  json : Bool
deriving DecidableEq, Repr

/-- Response half of the `testCase` struct. -/
structure TCResponse where
  headers : Headers
  body : Bytes
deriving DecidableEq, Repr

/-- The `testCase` struct of the source. -/
structure TestCase where
  status : Int
  request : TCRequest
  response : TCResponse
deriving DecidableEq, Repr

/-- An `api.Param` (key/value query parameter). -/
structure Param where
  key : List Char
  value : List Char
deriving DecidableEq, Repr

/-! ### Association-list model of Go maps -/

/-- Lookup in an association list, the model of Go map indexing. -/
def lookupA {α β : Type} [DecidableEq α] : List (α × β) → α → Option β
  | [], _ => none
  | (k, v) :: rest, k' => if k' = k then some v else lookupA rest k'

/-- Insert into an association list: update the existing key in place, or
append a new binding.  This is the model of Go map assignment. -/
def insertA {α β : Type} [DecidableEq α] : List (α × β) → α → β → List (α × β)
  | [], k, v => [(k, v)]
  | (k0, v0) :: rest, k, v =>
      if k = k0 then (k0, v) :: rest else (k0, v0) :: insertA rest k v

/-! ### Byte-level model of the `net/url` pipeline used by `AddTestCase` -/

/-- Go `net/url` control-character test (`stringContainsCTLByte`). -/
def isCtl (c : Char) : Bool := c.toNat < 32 || c.toNat == 127

/-- Go `net/url.ishex`. -/
def ishex (c : Char) : Bool :=
  ('0' ≤ c && c ≤ '9') || ('a' ≤ c && c ≤ 'f') || ('A' ≤ c && c ≤ 'F')

/-- Whether every `%` in the string begins a valid two-hex-digit escape; Go's
`unescape` fails exactly when this is violated (for the path, path-segment and
fragment encodings used here). -/
def validEscapes : List Char → Bool
  | [] => true
  | '%' :: rest =>
      match rest with
      | a :: b :: rest2 => ishex a && ishex b && validEscapes rest2
      | _ => false
  | _ :: rest => validEscapes rest

/-- Numeric value of a hex digit (Go `unhex`). -/
def unhex (c : Char) : Nat :=
  if '0' ≤ c ∧ c ≤ '9' then c.toNat - 48
  else if 'a' ≤ c ∧ c ≤ 'f' then c.toNat - 97 + 10
  else if 'A' ≤ c ∧ c ≤ 'F' then c.toNat - 65 + 10
  else 0

/-- Percent-decoding (Go `unescape`, assuming `validEscapes` holds). -/
def unescapeStr : List Char → List Char
  | '%' :: a :: b :: rest =>
      if ishex a && ishex b then Char.ofNat (16 * unhex a + unhex b) :: unescapeStr rest
      else '%' :: unescapeStr (a :: b :: rest)
  | c :: rest => c :: unescapeStr rest
  | [] => []

/-- ASCII alphanumeric test, as in Go `shouldEscape`. -/
def isAlphaNum (c : Char) : Bool :=
  ('a' ≤ c && c ≤ 'z') || ('A' ≤ c && c ≤ 'Z') || ('0' ≤ c && c ≤ '9')

/-- Go `net/url.shouldEscape` specialized to `encodePath`: unreserved
characters and the path-allowed reserved characters survive, `?` and
everything else is escaped. -/
def shouldEscapePath (c : Char) : Bool :=
  if isAlphaNum c then false
  else if c == '-' || c == '_' || c == '.' || c == '~' then false
  else if c == '$' || c == '&' || c == '+' || c == ',' || c == '/' || c == ':'
      || c == ';' || c == '=' || c == '?' || c == '@' then c == '?'
  else true

/-- Upper-case hex digit of a value below 16 (Go `upperhex` table). -/
def upperhex (n : Nat) : Char :=
  if n < 10 then Char.ofNat (48 + n) else Char.ofNat (55 + n)

/-- Go `net/url.escape` specialized to `encodePath`. -/
def escapePath (s : List Char) : List Char :=
  s.foldr
    (fun c acc =>
      if shouldEscapePath c then
        '%' :: upperhex (c.toNat / 16 % 16) :: upperhex (c.toNat % 16) :: acc
      else c :: acc)
    []

/-- One character of Go `net/url.validEncoded` for `encodePath`: the listed
sub-delimiters, brackets and `%` are acceptable, anything else must not need
escaping. -/
def validEncodedPathChar (c : Char) : Bool :=
  c == '!' || c == '$' || c == '&' || c == Char.ofNat 39 || c == '(' || c == ')'
    || c == '*' || c == '+' || c == ',' || c == ';' || c == '=' || c == ':'
    || c == '@' || c == '[' || c == ']' || c == '%' || !shouldEscapePath c

/-- Go `net/url.validEncoded` for `encodePath`. -/
def validEncodedPath (s : List Char) : Bool := s.all validEncodedPathChar

/-- The composite `URL.setPath` / `URL.EscapedPath` round trip on an escaped
path string: a string that is already acceptably encoded is kept verbatim
(`RawPath` is reused), otherwise the decoded path is re-escaped. -/
def canonEscapePath (s : List Char) : List Char :=
  if validEncodedPath s then s else escapePath (unescapeStr s)

/-- Go `strings.Split` on `/`. -/
def splitSlash : List Char → List (List Char)
  | [] => [[]]
  | '/' :: rest => [] :: splitSlash rest
  | c :: rest =>
      match splitSlash rest with
      | [] => [[c]]
      | seg :: segs => (c :: seg) :: segs

/-- Go `strings.TrimPrefix` with the one-slash separator. -/
def trimLeadSlash : List Char → List Char
  | '/' :: r => r
  | s => s

/-- Go `net/url.resolvePath("/", ref)`: prepend the base when the reference is
relative, drop `.` segments, let `..` segments pop, keep a trailing slash for a
trailing dot segment, and rebuild the path with a single leading slash. -/
def resolvePathRoot (ref : List Char) : List Char :=
  let full : List Char :=
    match ref with
    | [] => ['/']
    | '/' :: _ => ref
    | _ => '/' :: ref
  let src := splitSlash full
  let dst := src.foldl
    (fun d e =>
      if e = ['.'] then d
      else if e = ['.', '.'] then d.dropLast
      else d ++ [e])
    ([] : List (List Char))
  let dst :=
    match src.getLast? with
    | some e => if e = ['.'] ∨ e = ['.', '.'] then dst ++ [[]] else dst
    | none => dst
  '/' :: trimLeadSlash (List.intercalate ['/'] dst)

/-- Split at the first occurrence of a separator, keeping the information
whether the separator occurred (Go `strings.Cut`). -/
def cutAt (sep : Char) : List Char → List Char × Option (List Char)
  | [] => ([], none)
  | c :: rest =>
      if c = sep then ([], some rest)
      else
        let p := cutAt sep rest
        (c :: p.1, p.2)

/-- The fields of a parsed `url.URL` that matter for `AddTestCase`: the
canonically escaped path and the raw query (`some` exactly when the pre-
fragment part contained a `?`, covering `ForceQuery`). -/
structure ParsedUri where
  path : List Char
  rawQuery : Option (List Char)
deriving DecidableEq, Repr

/-- Model of `url.Parse` for the URIs `AddTestCase` builds (always starting
with `/v1/`, hence never carrying a scheme or authority): the fragment is cut
off at the first `#`, the remainder must be free of control bytes, the
fragment and the path must have valid percent-escapes, and the query is the
raw text after the first `?`. -/
def parseForMock (s : List Char) : Option ParsedUri :=
  let pf := cutAt '#' s
  if pf.1.any isCtl then none
  else if !validEscapes (pf.2.getD []) then none
  else
    let pq := cutAt '?' pf.1
    if !validEscapes pq.1 then none
    else some ⟨canonEscapePath pq.1, pq.2⟩

/-- Model of `baseUri.ResolveReference(rel).RequestURI()` for a parsed
reference: resolve the path against the root base, re-canonicalize, and
reattach `?` plus the raw query when one was present. -/
def requestUriOf (p : ParsedUri) : List Char :=
  let path := canonEscapePath (resolvePathRoot p.path)
  let path := if path = [] then ['/'] else path
  match p.rawQuery with
  | none => path
  | some q => path ++ '?' :: q

/-- The `/v1/` version prefix ensured by `AddTestCase`. -/
def apiV1 : List Char := ['/', 'v', '1', '/']

/-- Lines 453-455: prepend `/v1/` when the uri does not already start with it. -/
def ensureV1 (uri : List Char) : List Char :=
  if apiV1.isPrefixOf uri then uri else apiV1 ++ uri

/-- Lines 465-471: append the query parameters, the first after `?`, the rest
after `&`, each as `key=value`, in the order given. -/
def appendParams (uri : List Char) (params : List Param) : List Char :=
  match params with
  | [] => uri
  | p0 :: rest =>
      rest.foldl (fun u p => u ++ '&' :: (p.key ++ '=' :: p.value))
        (uri ++ '?' :: (p0.key ++ '=' :: p0.value))

/-- Line 473: `strings.Replace(uri, "//", "/", -1)`, non-overlapping from the
left. -/
def collapseSlash : List Char → List Char
  | [] => []
  | [c] => [c]
  | c1 :: c2 :: rest =>
      if c1 = '/' ∧ c2 = '/' then c1 :: collapseSlash rest
      else c1 :: collapseSlash (c2 :: rest)

/-- Whether the string contains two adjacent slashes. -/
def hasDoubleSlash : List Char → Bool
  | [] => false
  | [_] => false
  | c1 :: c2 :: rest => (c1 = '/' && c2 = '/') || hasDoubleSlash (c2 :: rest)

/-- The joined `key=value` query string the parameter loop produces. -/
def queryJoin (params : List Param) : List Char :=
  match params with
  | [] => []
  | p0 :: rest =>
      rest.foldl (fun u p => u ++ '&' :: (p.key ++ '=' :: p.value))
        (p0.key ++ '=' :: p0.value)

/-- The bucket key `AddTestCase` stores a registration under: the uri after
the `/v1/` prefix is ensured, parsed and resolved, with the parameters
appended and doubled slashes collapsed; `none` when parsing fails. -/
def bucketKey (uri : List Char) (params : List Param) : Option (List Char) :=
  match parseForMock (ensureV1 uri) with
  | none => none
  | some p => some (collapseSlash (appendParams (requestUriOf p) params))

/-! ### The registry and its operations -/

/-- One `(method, uri)` bucket: the ordered list of registered test cases. -/
abbrev Bucket := List TestCase

/-- The inner map `uri → bucket`. -/
abbrev UriMap := List (List Char × Bucket)

/-- The `Service.tests` field: `method → uri → bucket`. -/
abbrev Registry := List (String × UriMap)

/-- The two timer calls of `AddTestCase`: `s.stopTimer()` at entry and the
deferred `s.startTimer()` at return. -/
inductive TimerEvent where
  | stop
  | start
deriving DecidableEq, Repr

/-- Outcome of `AddTestCase`: success or one of its four error returns. -/
inductive AddOutcome where
  | ok
  | malformedUri
  | convertRequestBody
  | convertResponseBody
  | duplicate
deriving DecidableEq, Repr

/-- The error message of each failing outcome (the conversion messages are the
constant prefix before the formatted marshal error). -/
def AddOutcome.message : AddOutcome → String
  | .ok => ""
  | .malformedUri => "could not parse testcase uri"
  | .convertRequestBody => "unable to convert request body to []byte: "
  | .convertResponseBody => "unable to convert response body to []byte: "
  | .duplicate => "test case already registered"

/-- Result of a run of `AddTestCase`: the returned error value, the `tests`
map after the call, and the trace of timer events the run performed. -/
structure AddResult where
  result : AddOutcome
  tests : Registry
  timer : List TimerEvent
deriving Repr

/-- The timer trace of every run: stopped at entry, restarted at return. -/
def timerTrace : List TimerEvent := [TimerEvent.stop, TimerEvent.start]

/-- Lines 489-494 of the source: lazily create the method map and the bucket
when they are missing. -/
def ensureBucket (s : Registry) (method : String) (key : List Char) :
    Registry :=
  let s1 := match lookupA s method with
    | none => insertA s method []
    | some _ => s
  let um1 := (lookupA s1 method).getD []
  match lookupA um1 key with
  | none => insertA s1 method (insertA um1 key [])
  | some _ => s1

/-- Lines 489-508 of the source: lazily create the method map and the bucket,
scan the bucket for an entry with equal request headers and equal request
body, reject a duplicate, otherwise append the new test case. -/
def registerTC (s : Registry) (method : String) (key : List Char)
    (tc : TestCase) : AddResult :=
  let s2 := ensureBucket s method key
  let um2 := (lookupA s2 method).getD []
  let bucket := (lookupA um2 key).getD []
  if bucket.any
      (fun t => tc.request.headers == t.request.headers
        && tc.request.body == t.request.body) then
    ⟨.duplicate, s2, timerTrace⟩
  else
    ⟨.ok, insertA s2 method (insertA um2 key (bucket ++ [tc])), timerTrace⟩

/-- Model of `Service.AddTestCase` (dns_view.go:444-509).  The timer is
stopped at entry and its restart is deferred to every return; the uri is
prefixed, parsed, resolved, extended with the parameters and collapsed; both
bodies are converted; then the registration is attempted. -/
def AddTestCase (s : Registry) (method : String) (uri : List Char)
    (returnStatus : Int) (requestHeaders responseHeaders : Headers)
    (requestBody responseBody : BodyVal) (params : List Param) : AddResult :=
  match bucketKey uri params with
  | none => ⟨.malformedUri, s, timerTrace⟩
  | some key =>
      match convertBody requestBody with
      | .err => ⟨.convertRequestBody, s, timerTrace⟩
      | .ok b j =>
          match convertBody responseBody with
          | .err => ⟨.convertResponseBody, s, timerTrace⟩
          | .ok rb _ =>
              registerTC s method key ⟨returnStatus, ⟨requestHeaders, b, j⟩,
                ⟨responseHeaders, rb⟩⟩

/-- Model of `Service.ClearTestCases` (dns_view.go:512-514). -/
def ClearTestCases (_ : Registry) : Registry := []

/-- The bucket stored for `(method, uri)`, `none` when either level of the
map has no such key. -/
def findBucket (s : Registry) (method : String) (uri : List Char) :
    Option Bucket :=
  (lookupA s method).bind (fun um => lookupA um uri)

/-- The bucket for `(method, uri)`, defaulting to the empty list. -/
def bucketOf (s : Registry) (method : String) (uri : List Char) : Bucket :=
  (findBucket s method uri).getD []

/-- No two entries of a bucket agree on both request headers and request
body. -/
def BucketOk (b : Bucket) : Prop :=
  b.Pairwise (fun A B => A.request.headers ≠ B.request.headers
    ∨ A.request.body ≠ B.request.body)

/-- Every bucket of the registry satisfies `BucketOk`. -/
def RegistryOk (s : Registry) : Prop := ∀ m u, BucketOk (bucketOf s m u)

/-! ### Lemmas about the association-list map model -/

theorem lookupA_insertA_self {α β : Type} [DecidableEq α]
    (l : List (α × β)) (k : α) (v : β) : lookupA (insertA l k v) k = some v := by
  induction l with
  | nil => simp [insertA, lookupA]
  | cons hd tl ih =>
      obtain ⟨k0, v0⟩ := hd
      by_cases hk : k = k0
      · subst hk
        simp [insertA, lookupA]
      · simp [insertA, lookupA, hk, ih]

theorem lookupA_insertA_ne {α β : Type} [DecidableEq α]
    (l : List (α × β)) (k k' : α) (v : β) (h : k' ≠ k) :
    lookupA (insertA l k v) k' = lookupA l k' := by
  induction l with
  | nil => simp [insertA, lookupA, h]
  | cons hd tl ih =>
      obtain ⟨k0, v0⟩ := hd
      by_cases hk : k = k0
      · subst hk
        simp [insertA, lookupA, h]
      · by_cases hk' : k' = k0
        · subst hk'
          simp [insertA, lookupA, hk]
        · simp [insertA, lookupA, hk, hk', ih]

theorem insertA_of_lookupA_eq {α β : Type} [DecidableEq α]
    (l : List (α × β)) (k : α) (v : β) (h : lookupA l k = some v) :
    insertA l k v = l := by
  induction l with
  | nil => simp [lookupA] at h
  | cons hd tl ih =>
      obtain ⟨k0, v0⟩ := hd
      by_cases hk : k = k0
      · subst hk
        simp [lookupA] at h
        simp [insertA, h]
      · simp only [lookupA, if_neg hk] at h
        simp [insertA, hk, ih h]

/-! ### Characterization of `ensureBucket` and `registerTC` -/

theorem lookupA_ensureBucket_self (s : Registry) (m : String) (u : List Char) :
    lookupA (ensureBucket s m u) m
      = some (insertA ((lookupA s m).getD []) u (bucketOf s m u)) := by
  unfold ensureBucket bucketOf findBucket
  cases hm : lookupA s m with
  | none =>
      simp only [hm, Option.getD_none]
      rw [lookupA_insertA_self]
      simp [lookupA, lookupA_insertA_self]
  | some um =>
      simp only [hm, Option.getD_some]
      cases hu : lookupA um u with
      | none => simp [hu, lookupA_insertA_self]
      | some b => simp [hu, hm, insertA_of_lookupA_eq um u b hu]

theorem findBucket_ensureBucket_self (s : Registry) (m : String)
    (u : List Char) : findBucket (ensureBucket s m u) m u = some (bucketOf s m u) := by
  unfold findBucket
  rw [lookupA_ensureBucket_self]
  simp [lookupA_insertA_self]

theorem lookupA_ensureBucket_ne (s : Registry) (m m' : String) (u : List Char)
    (h : m' ≠ m) : lookupA (ensureBucket s m u) m' = lookupA s m' := by
  unfold ensureBucket
  cases hm : lookupA s m with
  | none =>
      simp [hm, lookupA_insertA_self, lookupA, lookupA_insertA_ne _ _ _ _ h]
  | some um =>
      simp only [hm, Option.getD_some]
      cases hu : lookupA um u with
      | none => simp [hu, lookupA_insertA_ne _ _ _ _ h]
      | some b => simp [hu]

theorem findBucket_ensureBucket_other (s : Registry) (m m' : String)
    (u u' : List Char) (h : ¬(m' = m ∧ u' = u)) :
    findBucket (ensureBucket s m u) m' u' = findBucket s m' u' := by
  by_cases hm : m' = m
  · subst hm
    have hu : u' ≠ u := fun hc => h ⟨rfl, hc⟩
    unfold findBucket
    rw [lookupA_ensureBucket_self]
    simp only [Option.some_bind]
    rw [lookupA_insertA_ne _ _ _ _ hu]
    cases hs : lookupA s m' with
    | none => simp [lookupA]
    | some um => simp
  · unfold findBucket
    rw [lookupA_ensureBucket_ne _ _ _ _ hm]

/-- The duplicate scan succeeds exactly when some registered entry has equal
request headers and equal request body. -/
theorem dupScan_iff (b : Bucket) (tc : TestCase) :
    (b.any (fun t => tc.request.headers == t.request.headers
        && tc.request.body == t.request.body)) = true
      ↔ ∃ t ∈ b, tc.request.headers = t.request.headers
          ∧ tc.request.body = t.request.body := by
  simp [List.any_eq_true, Bool.and_eq_true, beq_iff_eq]

theorem insertA_insertA {α β : Type} [DecidableEq α]
    (l : List (α × β)) (k : α) (v w : β) :
    insertA (insertA l k v) k w = insertA l k w := by
  induction l with
  | nil => simp [insertA]
  | cons hd tl ih =>
      obtain ⟨k0, v0⟩ := hd
      by_cases hk : k = k0
      · simp [insertA, hk]
      · simp [insertA, hk, ih]

/-- Canonical form of `registerTC`: the ensured registry with the duplicate
outcome, or the ensured registry with the bucket extended by the new entry. -/
theorem registerTC_eq (s : Registry) (m : String) (u : List Char)
    (tc : TestCase) :
    registerTC s m u tc =
      if (bucketOf s m u).any
          (fun t => tc.request.headers == t.request.headers
            && tc.request.body == t.request.body) then
        ⟨.duplicate, ensureBucket s m u, timerTrace⟩
      else
        ⟨.ok, insertA (ensureBucket s m u) m
            (insertA ((lookupA s m).getD []) u (bucketOf s m u ++ [tc])),
          timerTrace⟩ := by
  unfold registerTC
  simp only [lookupA_ensureBucket_self, Option.getD_some, lookupA_insertA_self,
    insertA_insertA]

theorem ensureBucket_of_found (s : Registry) (m : String) (u : List Char)
    (b : Bucket) (hfb : findBucket s m u = some b) :
    ensureBucket s m u = s := by
  unfold findBucket at hfb
  unfold ensureBucket
  cases hm : lookupA s m with
  | none => rw [hm] at hfb; simp at hfb
  | some um =>
      rw [hm] at hfb
      simp only [Option.some_bind] at hfb
      simp only [hm, Option.getD_some, hfb]

theorem registerTC_dup (s : Registry) (m : String) (u : List Char)
    (tc : TestCase)
    (h : ∃ t ∈ bucketOf s m u, tc.request.headers = t.request.headers
        ∧ tc.request.body = t.request.body) :
    registerTC s m u tc = ⟨.duplicate, s, timerTrace⟩ := by
  obtain ⟨t, ht, hteq⟩ := h
  have hfb : findBucket s m u = some (bucketOf s m u) := by
    cases hf : findBucket s m u with
    | none =>
        exfalso
        rw [bucketOf, hf] at ht
        simp at ht
    | some b =>
        rw [bucketOf, hf]
        simp
  rw [registerTC_eq, if_pos ((dupScan_iff _ _).mpr ⟨t, ht, hteq⟩),
    ensureBucket_of_found s m u _ hfb]

theorem registerTC_success (s : Registry) (m : String) (u : List Char)
    (tc : TestCase)
    (h : ¬∃ t ∈ bucketOf s m u, tc.request.headers = t.request.headers
        ∧ tc.request.body = t.request.body) :
    (registerTC s m u tc).result = .ok
      ∧ findBucket (registerTC s m u tc).tests m u
          = some (bucketOf s m u ++ [tc])
      ∧ ∀ m' u', ¬(m' = m ∧ u' = u) →
          findBucket (registerTC s m u tc).tests m' u' = findBucket s m' u' := by
  have hscan : (bucketOf s m u).any
      (fun t => tc.request.headers == t.request.headers
        && tc.request.body == t.request.body) = false := by
    rw [Bool.eq_false_iff]
    intro hc
    exact h ((dupScan_iff _ _).mp hc)
  rw [registerTC_eq, hscan]
  simp only [Bool.false_eq_true, if_false]
  refine ⟨trivial, ?_, ?_⟩
  · unfold findBucket
    rw [lookupA_insertA_self]
    simp only [Option.some_bind]
    rw [lookupA_insertA_self]
  · intro m' u' hne
    by_cases hm : m' = m
    · subst hm
      have hu : u' ≠ u := fun hc => hne ⟨rfl, hc⟩
      unfold findBucket
      rw [lookupA_insertA_self]
      simp only [Option.some_bind]
      rw [lookupA_insertA_ne _ _ _ _ hu]
      cases hs : lookupA s m' with
      | none => simp [lookupA]
      | some um => simp
    · unfold findBucket
      rw [lookupA_insertA_ne _ _ _ _ hm, lookupA_ensureBucket_ne _ _ _ _ hm]

theorem registerTC_result_cases (s : Registry) (m : String) (u : List Char)
    (tc : TestCase) : (registerTC s m u tc).result = .duplicate
      ∨ (registerTC s m u tc).result = .ok := by
  rw [registerTC_eq]
  split
  · exact Or.inl rfl
  · exact Or.inr rfl

theorem registerTC_timer (s : Registry) (m : String) (u : List Char)
    (tc : TestCase) : (registerTC s m u tc).timer = timerTrace := by
  rw [registerTC_eq]
  split <;> rfl

/-! ### Lemmas about slash collapsing and the query-parameter string -/

theorem collapseSlash_of_no_ds : ∀ s : List Char,
    hasDoubleSlash s = false → collapseSlash s = s
  | [], _ => rfl
  | [_], _ => rfl
  | c1 :: c2 :: rest, h => by
      simp only [hasDoubleSlash, Bool.or_eq_false_iff] at h
      have h1 : ¬(c1 = '/' ∧ c2 = '/') := by
        intro hc
        simp [hc.1, hc.2] at h
      simp only [collapseSlash, if_neg h1]
      rw [collapseSlash_of_no_ds (c2 :: rest) h.2]

theorem collapseSlash_cons_ne (c : Char) (y : List Char) (hc : c ≠ '/') :
    collapseSlash (c :: y) = c :: collapseSlash y := by
  cases y with
  | nil => rfl
  | cons d ys =>
      simp only [collapseSlash]
      rw [if_neg (fun hx => hc hx.1)]

theorem collapseSlash_append : ∀ x y : List Char, y.head? ≠ some '/' →
    collapseSlash (x ++ y) = collapseSlash x ++ collapseSlash y
  | [], y, _ => by simp [collapseSlash]
  | [c], y, hy => by
      cases y with
      | nil => simp [collapseSlash]
      | cons d ys =>
          have hd : ¬(c = '/' ∧ d = '/') := by
            intro hc
            apply hy
            rw [hc.2]
            rfl
          simp only [List.singleton_append, collapseSlash, if_neg hd]
  | c1 :: c2 :: rest, y, hy => by
      by_cases h12 : c1 = '/' ∧ c2 = '/'
      · simp only [List.cons_append, collapseSlash, if_pos h12, List.append_eq]
        rw [collapseSlash_append rest y hy]
      · simp only [List.cons_append, collapseSlash, if_neg h12, List.append_eq]
        rw [← List.cons_append, collapseSlash_append (c2 :: rest) y hy]

theorem hds_cons_ne (c : Char) (y : List Char) (hc : c ≠ '/') :
    hasDoubleSlash (c :: y) = hasDoubleSlash y := by
  cases y with
  | nil => rfl
  | cons d ys => simp [hasDoubleSlash, hc]

theorem hds_append_cons : ∀ (x : List Char) (c : Char) (z : List Char),
    hasDoubleSlash x = false → c ≠ '/' → hasDoubleSlash (c :: z) = false →
    hasDoubleSlash (x ++ c :: z) = false
  | [], c, z, _, _, hcz => hcz
  | [a], c, z, _, hc, hcz => by
      simp only [List.singleton_append, hasDoubleSlash, Bool.or_eq_false_iff]
      refine ⟨?_, hcz⟩
      simp [hc]
  | a :: b :: rest, c, z, hx, hc, hcz => by
      simp only [hasDoubleSlash, Bool.or_eq_false_iff] at hx
      simp only [List.cons_append, hasDoubleSlash, Bool.or_eq_false_iff]
      refine ⟨hx.1, ?_⟩
      have := hds_append_cons (b :: rest) c z hx.2 hc hcz
      simpa using this

theorem foldl_params_factor (l : List Param) :
    ∀ a b : List Char,
      l.foldl (fun u p => u ++ '&' :: (p.key ++ '=' :: p.value)) (a ++ b)
        = a ++ l.foldl (fun u p => u ++ '&' :: (p.key ++ '=' :: p.value)) b := by
  induction l with
  | nil => intro a b; rfl
  | cons p l ih =>
      intro a b
      simp only [List.foldl_cons]
      rw [List.append_assoc]
      exact ih a (b ++ '&' :: (p.key ++ '=' :: p.value))

theorem appendParams_eq (u : List Char) (p0 : Param) (rest : List Param) :
    appendParams u (p0 :: rest) = u ++ '?' :: queryJoin (p0 :: rest) := by
  simp only [appendParams, queryJoin]
  have h1 : u ++ '?' :: (p0.key ++ '=' :: p0.value)
      = (u ++ ['?']) ++ (p0.key ++ '=' :: p0.value) := by simp
  rw [h1, foldl_params_factor]
  simp

theorem hds_pair (p : Param) (hk : hasDoubleSlash p.key = false)
    (hv : hasDoubleSlash p.value = false) :
    hasDoubleSlash (p.key ++ '=' :: p.value) = false := by
  refine hds_append_cons p.key '=' p.value hk (by decide) ?_
  rw [hds_cons_ne _ _ (by decide)]
  exact hv

theorem hds_foldl_params : ∀ (l : List Param) (acc : List Char),
    hasDoubleSlash acc = false →
    (∀ q ∈ l, hasDoubleSlash q.key = false ∧ hasDoubleSlash q.value = false) →
    hasDoubleSlash
      (l.foldl (fun u p => u ++ '&' :: (p.key ++ '=' :: p.value)) acc) = false
  | [], acc, hacc, _ => hacc
  | p :: l, acc, hacc, hl => by
      simp only [List.foldl_cons]
      refine hds_foldl_params l _ ?_ (fun q hq => hl q (List.mem_cons_of_mem _ hq))
      refine hds_append_cons acc '&' _ hacc (by decide) ?_
      rw [hds_cons_ne _ _ (by decide)]
      exact hds_pair p (hl p (List.mem_cons_self _ _)).1 (hl p (List.mem_cons_self _ _)).2

theorem hds_queryJoin (params : List Param)
    (h : ∀ q ∈ params, hasDoubleSlash q.key = false
        ∧ hasDoubleSlash q.value = false) :
    hasDoubleSlash (queryJoin params) = false := by
  cases params with
  | nil => rfl
  | cons p0 rest =>
      unfold queryJoin
      refine hds_foldl_params rest _ ?_
        (fun q hq => h q (List.mem_cons_of_mem _ hq))
      exact hds_pair p0 (h p0 (List.mem_cons_self _ _)).1
        (h p0 (List.mem_cons_self _ _)).2

theorem isPrefixOf_append_self : ∀ x y : List Char,
    x.isPrefixOf (x ++ y) = true
  | [], _ => by simp [List.isPrefixOf]
  | c :: x, y => by
      simp only [List.cons_append, List.isPrefixOf, List.append_eq]
      rw [isPrefixOf_append_self x y]
      simp

/-- When every stage before registration succeeds, `AddTestCase` is the
registration step on the computed key and converted bodies. -/
theorem AddTestCase_eq_registerTC (s : Registry) (method : String)
    (uri : List Char) (st : Int) (reqH respH : Headers)
    (reqB respB : BodyVal) (params : List Param) (key : List Char)
    (b : Bytes) (j : Bool) (rb : Bytes) (rj : Bool)
    (hk : bucketKey uri params = some key)
    (hb : convertBody reqB = .ok b j)
    (hrb : convertBody respB = .ok rb rj) :
    AddTestCase s method uri st reqH respH reqB respB params
      = registerTC s method key ⟨st, ⟨reqH, b, j⟩, ⟨respH, rb⟩⟩ := by
  simp [AddTestCase, hk, hb, hrb]

/-! ### The claims -/

/-- Claim C1: when the `(method, normalized uri)` bucket already contains an
entry with equal request headers and equal request body bytes, `AddTestCase`
returns the duplicate error and the registry is unchanged; the response
status, headers and body of the new registration (here arbitrary `st`,
`respH`, `respB`) play no role in the decision. -/
theorem addTestCase_duplicate_unchanged (s : Registry) (method : String)
    (uri : List Char) (st : Int) (reqH respH : Headers)
    (reqB respB : BodyVal) (params : List Param) (key : List Char)
    (b : Bytes) (j : Bool) (rb : Bytes) (rj : Bool)
    (hk : bucketKey uri params = some key)
    (hb : convertBody reqB = .ok b j)
    (hrb : convertBody respB = .ok rb rj)
    (hdup : ∃ t ∈ bucketOf s method key,
        reqH = t.request.headers ∧ b = t.request.body) :
    (AddTestCase s method uri st reqH respH reqB respB params).result
        = .duplicate
    ∧ (AddTestCase s method uri st reqH respH reqB respB params).tests = s
    ∧ AddOutcome.message .duplicate = "test case already registered" := by
  rw [AddTestCase_eq_registerTC s method uri st reqH respH reqB respB params
    key b j rb rj hk hb hrb]
  rw [registerTC_dup s method key _ hdup]
  exact ⟨rfl, rfl, rfl⟩

/-- Witness for C1: a concrete duplicate registration, differing from the
stored entry only in response status and response body, is rejected and the
registry is unchanged. -/
theorem addTestCase_duplicate_unchanged_witness :
    (AddTestCase
        [("GET", [("/v1/zones".toList, [⟨200, ⟨[], [], false⟩, ⟨[], []⟩⟩])])]
        "GET" "zones".toList 404 [] [] (.raw []) (.str "other".toList)
        []).result = .duplicate
    ∧ (AddTestCase
        [("GET", [("/v1/zones".toList, [⟨200, ⟨[], [], false⟩, ⟨[], []⟩⟩])])]
        "GET" "zones".toList 404 [] [] (.raw []) (.str "other".toList)
        []).tests
      = [("GET", [("/v1/zones".toList, [⟨200, ⟨[], [], false⟩, ⟨[], []⟩⟩])])] := by
  have h := addTestCase_duplicate_unchanged
    [("GET", [("/v1/zones".toList, [⟨200, ⟨[], [], false⟩, ⟨[], []⟩⟩])])]
    "GET" "zones".toList 404 [] [] (.raw []) (.str "other".toList) []
    "/v1/zones".toList [] false (strBytes "other".toList) false
    (by decide) rfl rfl (by decide)
  exact ⟨h.1, h.2.1⟩

/-- Claim C6: `AddTestCase` returns the malformed-URI error exactly when the
uri, after the `/v1/` prefix is ensured, fails to parse as a URI reference,
and on that failure the registry is unchanged. -/
theorem addTestCase_malformed_iff (s : Registry) (method : String)
    (uri : List Char) (st : Int) (reqH respH : Headers)
    (reqB respB : BodyVal) (params : List Param) :
    ((AddTestCase s method uri st reqH respH reqB respB params).result
        = .malformedUri ↔ parseForMock (ensureV1 uri) = none)
    ∧ (parseForMock (ensureV1 uri) = none →
        (AddTestCase s method uri st reqH respH reqB respB params).tests = s)
    ∧ AddOutcome.message .malformedUri = "could not parse testcase uri" := by
  cases hp : parseForMock (ensureV1 uri) with
  | none =>
      have he : AddTestCase s method uri st reqH respH reqB respB params
          = ⟨.malformedUri, s, timerTrace⟩ := by
        simp [AddTestCase, bucketKey, hp]
      rw [he]
      exact ⟨by simp, fun _ => rfl, rfl⟩
  | some p =>
      have hres : (AddTestCase s method uri st reqH respH reqB
          respB params).result ≠ .malformedUri := by
        simp only [AddTestCase, bucketKey, hp]
        cases hcb : convertBody reqB with
        | err => simp
        | ok b j =>
            cases hcb2 : convertBody respB with
            | err => simp
            | ok rb rj =>
                rcases registerTC_result_cases s method
                  (collapseSlash (appendParams (requestUriOf p) params))
                  ⟨st, ⟨reqH, b, j⟩, ⟨respH, rb⟩⟩ with h | h <;> simp [h]
      refine ⟨⟨fun hc => absurd hc hres, fun hc => by simp [hp] at hc⟩,
        fun hc => by simp [hp] at hc, rfl⟩

/-- Witness for C6: a uri with an invalid percent escape is rejected as
malformed with the registry untouched, and a well-formed uri is not. -/
theorem addTestCase_malformed_iff_witness :
    (AddTestCase [] "GET" "zones/%zz".toList 200 [] [] (.raw []) (.raw [])
        []).result = .malformedUri
    ∧ (AddTestCase [] "GET" "zones/%zz".toList 200 [] [] (.raw []) (.raw [])
        []).tests = []
    ∧ (AddTestCase [] "GET" "zones".toList 200 [] [] (.raw []) (.raw [])
        []).result ≠ .malformedUri := by
  have h1 := addTestCase_malformed_iff [] "GET" "zones/%zz".toList 200 [] []
    (.raw []) (.raw []) []
  have h2 := addTestCase_malformed_iff [] "GET" "zones".toList 200 [] []
    (.raw []) (.raw []) []
  refine ⟨h1.1.mpr (by decide), h1.2.1 (by decide), fun hc => ?_⟩
  exact absurd (h2.1.mp hc) (by decide)

/-- Claim C7: `ClearTestCases` never fails and discards the whole two-level
mapping: the result is the empty registry, every lookup misses, and a
subsequent `AddTestCase` behaves exactly as on the empty registry. -/
theorem clearTestCases_resets (s : Registry) :
    ClearTestCases s = ([] : Registry)
    ∧ (∀ (m : String) (u : List Char), findBucket (ClearTestCases s) m u = none)
    ∧ (∀ (method : String) (uri : List Char) (st : Int)
        (reqH respH : Headers) (reqB respB : BodyVal) (params : List Param),
        AddTestCase (ClearTestCases s) method uri st reqH respH reqB respB
            params
          = AddTestCase [] method uri st reqH respH reqB respB params) :=
  ⟨rfl, fun _ _ => rfl, fun _ _ _ _ _ _ _ _ => rfl⟩

/-- Claim C8: on every execution of `AddTestCase` the timer trace is exactly
one stop at entry followed by one restart at return, on every return path. -/
theorem addTestCase_timer (s : Registry) (method : String) (uri : List Char)
    (st : Int) (reqH respH : Headers) (reqB respB : BodyVal)
    (params : List Param) :
    (AddTestCase s method uri st reqH respH reqB respB params).timer
      = [TimerEvent.stop, TimerEvent.start] := by
  show (AddTestCase s method uri st reqH respH reqB respB params).timer
    = timerTrace
  cases hk : bucketKey uri params with
  | none => simp [AddTestCase, hk]
  | some key =>
      cases hb : convertBody reqB with
      | err => simp [AddTestCase, hk, hb]
      | ok b j =>
          cases hrb : convertBody respB with
          | err => simp [AddTestCase, hk, hb, hrb]
          | ok rb rj => simp [AddTestCase, hk, hb, hrb, registerTC_timer]

/-- Claim C2: starting from the empty registry, the no-duplicates predicate
(within each bucket every two distinct entries differ in request headers or
request body) is preserved by every outcome of `AddTestCase` and by
`ClearTestCases`. -/
theorem registry_invariant :
    RegistryOk []
    ∧ (∀ (s : Registry) (method : String) (uri : List Char) (st : Int)
        (reqH respH : Headers) (reqB respB : BodyVal) (params : List Param),
        RegistryOk s →
        RegistryOk (AddTestCase s method uri st reqH respH reqB respB
          params).tests)
    ∧ (∀ s : Registry, RegistryOk s → RegistryOk (ClearTestCases s)) := by
  have hempty : RegistryOk [] := by
    intro m u
    simp [bucketOf, findBucket, lookupA, BucketOk]
  refine ⟨hempty, ?_, fun s _ => hempty⟩
  intro s method uri st reqH respH reqB respB params hok
  cases hk : bucketKey uri params with
  | none => simpa [AddTestCase, hk] using hok
  | some key =>
      cases hb : convertBody reqB with
      | err => simpa [AddTestCase, hk, hb] using hok
      | ok b j =>
          cases hrb : convertBody respB with
          | err => simpa [AddTestCase, hk, hb, hrb] using hok
          | ok rb rj =>
              rw [AddTestCase_eq_registerTC s method uri st reqH respH reqB
                respB params key b j rb rj hk hb hrb]
              by_cases hdup : ∃ t ∈ bucketOf s method key,
                  (⟨st, ⟨reqH, b, j⟩, ⟨respH, rb⟩⟩ : TestCase).request.headers
                      = t.request.headers
                    ∧ (⟨st, ⟨reqH, b, j⟩,
                        ⟨respH, rb⟩⟩ : TestCase).request.body = t.request.body
              · rw [registerTC_dup s method key _ hdup]
                exact hok
              · obtain ⟨_, hself, hother⟩ :=
                  registerTC_success s method key _ hdup
                intro m u
                by_cases hmu : m = method ∧ u = key
                · obtain ⟨hm, hu⟩ := hmu
                  subst hm
                  subst hu
                  rw [bucketOf, hself]
                  simp only [Option.getD_some]
                  rw [BucketOk, List.pairwise_append]
                  refine ⟨hok m u, List.pairwise_singleton _ _, ?_⟩
                  intro a ha t' ht'
                  simp only [List.mem_singleton] at ht'
                  subst ht'
                  by_contra hcon
                  push_neg at hcon
                  exact hdup ⟨a, ha, hcon.1.symm, hcon.2.symm⟩
                · rw [bucketOf, hother m u hmu]
                  exact hok m u

/-- Witness for C2: the invariant holds after one registration made on the
empty registry. -/
theorem registry_invariant_witness :
    RegistryOk (AddTestCase [] "GET" "zones".toList 200 [] [] (.raw [])
      (.raw []) []).tests :=
  registry_invariant.2.1 [] "GET" "zones".toList 200 [] [] (.raw []) (.raw [])
    [] registry_invariant.1

/-- Claim C9: a successful `AddTestCase` appends the new entry at the end of
its `(method, key)` bucket and leaves every other bucket of the registry
exactly as it was. -/
theorem addTestCase_success_frame (s : Registry) (method : String)
    (uri : List Char) (st : Int) (reqH respH : Headers)
    (reqB respB : BodyVal) (params : List Param) (key : List Char)
    (b : Bytes) (j : Bool) (rb : Bytes) (rj : Bool)
    (hk : bucketKey uri params = some key)
    (hb : convertBody reqB = .ok b j)
    (hrb : convertBody respB = .ok rb rj)
    (hsucc : (AddTestCase s method uri st reqH respH reqB respB
        params).result = .ok) :
    findBucket (AddTestCase s method uri st reqH respH reqB respB
        params).tests method key
      = some (bucketOf s method key ++ [⟨st, ⟨reqH, b, j⟩, ⟨respH, rb⟩⟩])
    ∧ ∀ (m' : String) (u' : List Char), ¬(m' = method ∧ u' = key) →
        findBucket (AddTestCase s method uri st reqH respH reqB respB
            params).tests m' u'
          = findBucket s m' u' := by
  rw [AddTestCase_eq_registerTC s method uri st reqH respH reqB respB params
    key b j rb rj hk hb hrb] at hsucc ⊢
  by_cases hdup : ∃ t ∈ bucketOf s method key,
      (⟨st, ⟨reqH, b, j⟩, ⟨respH, rb⟩⟩ : TestCase).request.headers
          = t.request.headers
        ∧ (⟨st, ⟨reqH, b, j⟩,
            ⟨respH, rb⟩⟩ : TestCase).request.body = t.request.body
  · rw [registerTC_dup s method key _ hdup] at hsucc
    exact absurd hsucc (by simp)
  · obtain ⟨_, hself, hother⟩ := registerTC_success s method key _ hdup
    exact ⟨hself, hother⟩

/-- Witness for C9: registering on the empty registry creates exactly the one
bucket `("GET", "/v1/zones")` holding the new entry, and a different method
still has no bucket. -/
theorem addTestCase_success_frame_witness :
    findBucket (AddTestCase [] "GET" "zones".toList 200 [] [] (.raw [7])
        (.raw []) []).tests "GET" "/v1/zones".toList
      = some [⟨200, ⟨[], [7], false⟩, ⟨[], []⟩⟩]
    ∧ findBucket (AddTestCase [] "GET" "zones".toList 200 [] [] (.raw [7])
        (.raw []) []).tests "POST" "/v1/zones".toList = none := by
  have h := addTestCase_success_frame [] "GET" "zones".toList 200 [] []
    (.raw [7]) (.raw []) [] "/v1/zones".toList [7] false [] false
    (by decide) rfl rfl (by decide)
  constructor
  · rw [h.1]
    decide
  · rw [h.2 "POST" "/v1/zones".toList (by decide)]
    rfl

/-- Claim C3: uri normalization is idempotent — a uri that already carries the
`/v1/` prefix, is unchanged by resolution against the root base and has no
doubled slash is its own bucket key — and for a path not starting with
`/v1/`, registering it and registering its `/v1/`-prefixed form are the same
call (in particular they land in the same bucket). -/
theorem uri_normalization_idem :
    (∀ (u : List Char) (p : ParsedUri),
        apiV1.isPrefixOf u = true → parseForMock u = some p →
        requestUriOf p = u → hasDoubleSlash u = false →
        bucketKey u [] = some u)
    ∧ (∀ (s : Registry) (method : String) (pth : List Char) (st : Int)
        (reqH respH : Headers) (reqB respB : BodyVal),
        apiV1.isPrefixOf pth = false →
        AddTestCase s method pth st reqH respH reqB respB []
          = AddTestCase s method (apiV1 ++ pth) st reqH respH reqB respB []) := by
  constructor
  · intro u p h1 hp hres hds
    have hv : ensureV1 u = u := by
      rw [ensureV1, if_pos h1]
    simp only [bucketKey, hv, hp, appendParams]
    rw [hres, collapseSlash_of_no_ds u hds]
  · intro s method pth st reqH respH reqB respB h
    have hpre : apiV1.isPrefixOf (apiV1 ++ pth) = true :=
      isPrefixOf_append_self apiV1 pth
    have h2 : ensureV1 pth = ensureV1 (apiV1 ++ pth) := by
      rw [ensureV1, if_neg (by simp [h]), ensureV1, if_pos hpre]
    simp only [AddTestCase, bucketKey, h2]

/-- Witness for C3: `/v1/zones/x` is a fixed point of normalization and
`zones/x` registers identically to `/v1/zones/x`. -/
theorem uri_normalization_idem_witness :
    bucketKey "/v1/zones/x".toList [] = some "/v1/zones/x".toList
    ∧ AddTestCase [] "GET" "zones/x".toList 200 [] [] (.raw []) (.raw []) []
        = AddTestCase [] "GET" "/v1/zones/x".toList 200 [] [] (.raw [])
            (.raw []) [] := by
  constructor
  · exact uri_normalization_idem.1 "/v1/zones/x".toList
      ⟨"/v1/zones/x".toList, none⟩ (by decide) (by decide) (by decide)
      (by decide)
  · exact uri_normalization_idem.2 [] "GET" "zones/x".toList 200 [] []
      (.raw []) (.raw []) (by decide)

/-- Counterexample to claim C4 as stated: with parameter value `a//b` the
registration succeeds but the pair is not appended verbatim — the final
slash-collapse rewrites it to `a/b`, so the bucket key is not the normalized
path followed by the verbatim `key=value` pairs. -/
theorem bucketKey_params_verbatim_fails :
    (AddTestCase [] "GET" "zones".toList 200 [] [] (.raw []) (.raw [])
        [⟨"k".toList, "a//b".toList⟩]).result = .ok
    ∧ bucketKey "zones".toList [⟨"k".toList, "a//b".toList⟩]
        = some "/v1/zones?k=a/b".toList
    ∧ bucketKey "zones".toList [⟨"k".toList, "a//b".toList⟩]
        ≠ some ("/v1/zones".toList ++ "?k=a//b".toList)
    ∧ findBucket (AddTestCase [] "GET" "zones".toList 200 [] [] (.raw [])
        (.raw []) [⟨"k".toList, "a//b".toList⟩]).tests "GET"
        ("/v1/zones".toList ++ "?k=a//b".toList) = none := by
  refine ⟨by decide, by decide, by decide, by decide⟩

/-- Claim C4 (amended): for a registration whose parameter keys and values
contain no `//`, the bucket key is the collapsed normalized uri followed by
`?` and the `key=value` pairs joined with `&`, verbatim in registration
order (a `//` inside a parameter is instead collapsed to `/` by the final
replace); the same parameters given in a different order produce a different
bucket key. -/
theorem bucketKey_params_format (uri : List Char) (params : List Param)
    (p0 : Param) (rest : List Param) (p : ParsedUri)
    (hps : params = p0 :: rest)
    (hfree : ∀ q ∈ params, hasDoubleSlash q.key = false
        ∧ hasDoubleSlash q.value = false)
    (hp : parseForMock (ensureV1 uri) = some p) :
    bucketKey uri params
      = some (collapseSlash (requestUriOf p) ++ '?' :: queryJoin params)
    ∧ bucketKey "path".toList
          [⟨"k1".toList, "a".toList⟩, ⟨"k2".toList, "b".toList⟩]
        ≠ bucketKey "path".toList
          [⟨"k2".toList, "b".toList⟩, ⟨"k1".toList, "a".toList⟩] := by
  subst hps
  refine ⟨?_, by decide⟩
  simp only [bucketKey, hp]
  rw [appendParams_eq,
    collapseSlash_append (requestUriOf p) ('?' :: queryJoin (p0 :: rest))
      (by
        intro hc
        rw [List.head?_cons] at hc
        exact absurd (Option.some.inj hc) (by decide)),
    collapseSlash_cons_ne '?' _ (by decide),
    collapseSlash_of_no_ds _ (hds_queryJoin _ hfree)]

/-- Witness for the amended C4: two parameters in order produce the key
`/v1/zones?k1=a&k2=b`. -/
theorem bucketKey_params_format_witness :
    bucketKey "zones".toList
        [⟨"k1".toList, "a".toList⟩, ⟨"k2".toList, "b".toList⟩]
      = some "/v1/zones?k1=a&k2=b".toList := by
  have h := bucketKey_params_format "zones".toList
    [⟨"k1".toList, "a".toList⟩, ⟨"k2".toList, "b".toList⟩]
    ⟨"k1".toList, "a".toList⟩ [⟨"k2".toList, "b".toList⟩]
    ⟨"/v1/zones".toList, none⟩ rfl (by decide) (by decide)
  rw [h.1]
  decide

/-- Claim C5: `convertBody` is a three-way case split — raw bytes are used
as-is and tagged literal, a string becomes its bytes tagged literal, any
other value is JSON-marshaled and tagged structured — and a marshal failure
of the request or the response body aborts `AddTestCase` with the matching
conversion error, leaving the registry unchanged. -/
theorem convertBody_spec (s : Registry) (method : String) (uri : List Char)
    (st : Int) (reqH respH : Headers) (params : List Param)
    (key : List Char) :
    (∀ b, convertBody (.raw b) = .ok b false)
    ∧ (∀ cs, convertBody (.str cs) = .ok (strBytes cs) false)
    ∧ convertBody .nilVal = .ok jsonNull true
    ∧ (∀ d, convertBody (.structured (some d)) = .ok d true)
    ∧ convertBody (.structured none) = .err
    ∧ (bucketKey uri params = some key →
        ∀ reqB respB : BodyVal, convertBody reqB = .err →
        (AddTestCase s method uri st reqH respH reqB respB params).result
            = .convertRequestBody
        ∧ (AddTestCase s method uri st reqH respH reqB respB params).tests
            = s)
    ∧ (bucketKey uri params = some key →
        ∀ (reqB respB : BodyVal) (b : Bytes) (j : Bool),
        convertBody reqB = .ok b j → convertBody respB = .err →
        (AddTestCase s method uri st reqH respH reqB respB params).result
            = .convertResponseBody
        ∧ (AddTestCase s method uri st reqH respH reqB respB params).tests
            = s) := by
  refine ⟨fun _ => rfl, fun _ => rfl, rfl, fun _ => rfl, rfl, ?_, ?_⟩
  · intro hk reqB respB hcb
    constructor <;> simp [AddTestCase, hk, hcb]
  · intro hk reqB respB b j hcb hcb2
    constructor <;> simp [AddTestCase, hk, hcb, hcb2]

/-- Witness for C5: a body whose marshaling fails aborts the registration
with the request- or response-side conversion error and no state change. -/
theorem convertBody_spec_witness :
    (AddTestCase [] "GET" "zones".toList 200 [] [] (.structured none)
        (.raw []) []).result = .convertRequestBody
    ∧ (AddTestCase [] "GET" "zones".toList 200 [] [] (.structured none)
        (.raw []) []).tests = []
    ∧ (AddTestCase [] "GET" "zones".toList 200 [] [] (.raw [])
        (.structured none) []).result = .convertResponseBody
    ∧ (AddTestCase [] "GET" "zones".toList 200 [] [] (.raw [])
        (.structured none) []).tests = [] := by
  have h1 := (convertBody_spec [] "GET" "zones".toList 200 [] [] []
    "/v1/zones".toList).2.2.2.2.2.1 (by decide) (.structured none) (.raw [])
    rfl
  have h2 := (convertBody_spec [] "GET" "zones".toList 200 [] [] []
    "/v1/zones".toList).2.2.2.2.2.2 (by decide) (.raw []) (.structured none)
    [] false rfl rfl
  exact ⟨h1.1, h1.2, h2.1, h2.2⟩

/-- Claim C10: an untyped nil body falls through to JSON marshaling, so
`convertBody` yields the four bytes of `null` tagged structured with no
error; a nil-body registration therefore does not collide with an existing
empty-byte-slice registration (stored bytes empty, literal), while an
empty-string registration does collide with it. -/
theorem convertBody_nil_null :
    convertBody .nilVal = .ok (strBytes "null".toList) true
    ∧ strBytes "null".toList = [110, 117, 108, 108]
    ∧ (AddTestCase [] "GET" "zones".toList 200 [] [] (.raw []) (.raw [])
        []).result = .ok
    ∧ (AddTestCase (AddTestCase [] "GET" "zones".toList 200 [] [] (.raw [])
        (.raw []) []).tests "GET" "zones".toList 200 [] [] .nilVal (.raw [])
        []).result = .ok
    ∧ (AddTestCase (AddTestCase [] "GET" "zones".toList 200 [] [] (.raw [])
        (.raw []) []).tests "GET" "zones".toList 200 [] [] (.str [])
        (.raw []) []).result = .duplicate
    ∧ findBucket (AddTestCase (AddTestCase [] "GET" "zones".toList 200 [] []
        (.raw []) (.raw []) []).tests "GET" "zones".toList 200 [] [] .nilVal
        (.raw []) []).tests "GET" "/v1/zones".toList
      = some [⟨200, ⟨[], [], false⟩, ⟨[], []⟩⟩,
          ⟨200, ⟨[], jsonNull, true⟩, ⟨[], []⟩⟩] := by
  decide

end Mockns1

